import Mathlib

/-!
Verification of the parameter-search and parameter-cache module of the
`nonnative` repository (`src/params.rs`).

The Rust code is embedded shallowly:
* machine integers (`usize`) become `Nat`; every subtraction and division
  that can panic in Rust (underflow, division by zero) is modelled with
  `checkedSub` / `checkedDiv` returning `Option Nat`, so a Rust panic
  becomes `none`;
* `ParamsSearching::solve` becomes `ParamsSearching.solve`, a function
  from the search state to `Option ParamsSearching` (`none` = panic);
* `gen_params` unwraps the two result fields; a failed unwrap (or a panic
  inside `solve`) is modelled as `none`;
* the type-keyed heterogeneous cache map `BTreeMap<TypeId, Box<dyn Any>>`
  is modelled as a record `CacheMap` with one typed slot per type that the
  module ever stores (`ParamsMap`, `HitRate`); the `downcast` failure
  branches of the Rust code are unreachable under this typing and are not
  represented;
* `BTreeMap<(usize, usize), NonNativeFieldParams>` is modelled as an
  association list with `mapGet` / `mapInsert` (insert replaces an
  existing binding, as `BTreeMap::insert` does).
-/

namespace Nonnative

/-- The decomposition parameters produced by the search
(`NonNativeFieldParams` in the Rust crate). -/
structure NonNativeFieldParams where
  num_limbs : Nat
  bits_per_limb : Nat
deriving DecidableEq, Repr

/-- The optimization target of the search (`OptimizationType`). -/
inductive OptimizationType where
  | Constraints : OptimizationType
  | Density : OptimizationType
deriving DecidableEq, Repr

/-- Checked subtraction: `usize` subtraction panics on underflow, which we
model as `none`. -/
def checkedSub (a b : Nat) : Option Nat :=
  if b ≤ a then some (a - b) else none

/-- Checked division: `usize` division panics on a zero divisor, which we
model as `none`. -/
def checkedDiv (a b : Nat) : Option Nat :=
  if b = 0 then none else some (a / b)

/-- The fixed overflow safety margin, `let surfeit = 10` in
`ParamsSearching::solve`. -/
def surfeit : Nat := 10

/-- A search instance for parameters (`ParamsSearching`). -/
structure ParamsSearching where
  base_field_prime_length : Nat
  target_field_prime_bit_length : Nat
  optimization_type : OptimizationType
  num_of_limbs : Option Nat
  limb_size : Option Nat
deriving DecidableEq, Repr

/-- Rust `ParamsSearching::new`. -/
def ParamsSearching.new (base_field_prime_length target_field_prime_bit_length : Nat)
    (optimization_type : OptimizationType) : ParamsSearching :=
  ⟨base_field_prime_length, target_field_prime_bit_length, optimization_type, none, none⟩

/-- The body of the `for limb_size in 1..=max_limb_size` loop of
`ParamsSearching::solve`: computes `(this_cost, num_of_limbs)` for one
candidate `limb_size`, with every fallible `usize` operation checked.
Returns `none` when the Rust code would panic. -/
def loopBody (base target : Nat) (goal : OptimizationType) (limb : Nat) :
    Option (Nat × Nat) :=
  (checkedSub (target + limb) 1).bind fun a =>
  (checkedDiv a limb).bind fun num_of_limbs =>
  (checkedSub base 1).bind fun b1 =>
  (checkedSub b1 surfeit).bind fun b2 =>
  (checkedSub b2 1).bind fun b3 =>
  (checkedDiv b3 (2 * limb)).bind fun group_size =>
  (checkedSub (2 * num_of_limbs) 1).bind fun tnl =>
  (checkedSub (tnl + group_size) 1).bind fun c1 =>
  (checkedDiv c1 group_size).bind fun num_of_groups =>
  (checkedSub num_of_groups 1).bind fun gm1 =>
  match goal with
  | OptimizationType.Constraints =>
      (checkedSub (2 * num_of_limbs) 1).bind fun costA =>
      some (costA + (num_of_groups + gm1 * (limb * 2 + 1 + 2 * surfeit) + 1), num_of_limbs)
  | OptimizationType.Density =>
      some (num_of_limbs * num_of_limbs / 2 +
        (3 * num_of_groups + gm1 * (limb * 2 + 1 + 2 * surfeit) + 2), num_of_limbs)

/-- The accumulation loop of `ParamsSearching::solve` over the remaining
candidate limb sizes.  The accumulator is
`Option (min_cost × min_cost_limb_size × min_cost_num_of_limbs)`, mirroring
the three `Option` locals of the Rust code; the outer `Option` models a
panic inside the loop body. -/
def solveAux (base target : Nat) (goal : OptimizationType) :
    List Nat → Option (Nat × Nat × Nat) → Option (Option (Nat × Nat × Nat))
  | [], best => some best
  | limb :: rest, best =>
    match loopBody base target goal limb with
    | none => none
    | some (this_cost, num_of_limbs) =>
      match best with
      | none => solveAux base target goal rest (some (this_cost, limb, num_of_limbs))
      | some (mc, ml, mn) =>
        if this_cost < mc then
          solveAux base target goal rest (some (this_cost, limb, num_of_limbs))
        else
          solveAux base target goal rest (some (mc, ml, mn))

/-- Rust `ParamsSearching::solve`.  Computes
`max_limb_size = (base_field_prime_length - 1 - surfeit - 1) / 2` with
checked subtractions, iterates the body over `1..=max_limb_size`, and
writes the resulting minima into the two solution fields.  `none` models a
panic. -/
def ParamsSearching.solve (p : ParamsSearching) : Option ParamsSearching :=
  (checkedSub p.base_field_prime_length 1).bind fun b1 =>
  (checkedSub b1 surfeit).bind fun b2 =>
  (checkedSub b2 1).bind fun b3 =>
  (solveAux p.base_field_prime_length p.target_field_prime_bit_length p.optimization_type
      (List.range' 1 (b3 / 2)) none).bind fun best =>
  some { p with
    num_of_limbs := best.map (fun r => r.2.2),
    limb_size := best.map (fun r => r.2.1) }

/-- Rust `gen_params`: runs the search for the given field bit lengths and
unwraps the two result fields.  The build-time optimization feature flag is
modelled as the explicit argument `goal`.  `none` models a panic (either
inside `solve` or at the `unwrap` calls). -/
def gen_params (base target : Nat) (goal : OptimizationType) :
    Option NonNativeFieldParams :=
  match (ParamsSearching.new base target goal).solve with
  | none => none
  | some p =>
    match p.num_of_limbs, p.limb_size with
    | some n, some l => some ⟨n, l⟩
    | _, _ => none

/-- The limb count formula of the specification:
`num_limbs = ceil(target_bits / limb_size)`. -/
def specNumLimbs (target l : Nat) : Nat := (target + l - 1) / l

/-- The group size formula of the specification:
`group_size = (base_bits - 1 - surfeit - 1) / (2 * limb_size)`. -/
def specGroupSize (base l : Nat) : Nat := (base - 1 - surfeit - 1) / (2 * l)

/-- The group count formula of the specification:
`num_groups = ceil((2*num_limbs - 1) / group_size)`. -/
def specNumGroups (base target l : Nat) : Nat :=
  (2 * specNumLimbs target l - 1 + specGroupSize base l - 1) / specGroupSize base l

/-- The cost formulas exactly as the specification states them (§4.1 step 4):
under `Constraints`,
`cost = (2*num_limbs - 1) + num_groups + (num_groups-1)*(2*limb_size + 1 + 2*surfeit) + 1`;
under `Density`,
`cost = (num_limbs^2)/2 + 3*num_groups + (num_groups-1)*(2*limb_size + 1 + 2*surfeit) + 2`. -/
def specCost (base target : Nat) (goal : OptimizationType) (l : Nat) : Nat :=
  match goal with
  | OptimizationType.Constraints =>
      (2 * specNumLimbs target l - 1) + specNumGroups base target l +
        (specNumGroups base target l - 1) * (2 * l + 1 + 2 * surfeit) + 1
  | OptimizationType.Density =>
      specNumLimbs target l * specNumLimbs target l / 2 +
        3 * specNumGroups base target l +
        (specNumGroups base target l - 1) * (2 * l + 1 + 2 * surfeit) + 2

/-- The per-field-pair parameter map (`ParamsMap`), a
`BTreeMap<(usize, usize), NonNativeFieldParams>` keyed by
`(BaseField::size_in_bits(), TargetField::size_in_bits())`, modelled as an
association list. -/
def ParamsMap : Type := List ((Nat × Nat) × NonNativeFieldParams)

instance : DecidableEq ParamsMap := by
  unfold ParamsMap
  infer_instance

/-- Rust `BTreeMap::get` on the modelled `ParamsMap`. -/
def mapGet (m : ParamsMap) (k : Nat × Nat) : Option NonNativeFieldParams :=
  match m with
  | [] => none
  | (k', v) :: rest => if k' = k then some v else mapGet rest k

/-- Rust `BTreeMap::insert` on the modelled `ParamsMap`: replaces the binding of
an existing key, otherwise appends. -/
def mapInsert (m : ParamsMap) (k : Nat × Nat) (v : NonNativeFieldParams) : ParamsMap :=
  match m with
  | [] => [(k, v)]
  | (k', v') :: rest => if k' = k then (k, v) :: rest else (k', v') :: mapInsert rest k v

/-- Cache hit/miss statistics (`HitRate`). -/
structure HitRate where
  hit : Nat
  miss : Nat
deriving DecidableEq, Repr

/-- The type-keyed cache storage `BTreeMap<TypeId, Box<dyn Any>>` owned by
the constraint system, modelled with one typed slot per `TypeId` this
module stores under (`ParamsMap` and `HitRate`); `none` means the `TypeId`
key is absent. -/
structure CacheMap where
  params_map : Option ParamsMap
  hit_rate : Option HitRate
deriving DecidableEq

/-- Rust `HitRate::update`: if a `HitRate` entry is installed in the storage,
increment its `hit` or `miss` field and store it back; otherwise do
nothing. -/
def HitRate.update (pmap : CacheMap) (hit : Bool) : CacheMap :=
  match pmap.hit_rate with
  | none => pmap
  | some stat =>
    if hit then { pmap with hit_rate := some { stat with hit := stat.hit + 1 } }
    else { pmap with hit_rate := some { stat with miss := stat.miss + 1 } }

/-- A reference to a constraint system (`ConstraintSystemRef`): either the
null variant or a handle on the system, of which the embedding keeps the
only field this module touches, the `cache_map`. -/
inductive ConstraintSystemRef where
  | None : ConstraintSystemRef
  | CS (cache_map : CacheMap) : ConstraintSystemRef
deriving DecidableEq

/-- Rust `get_params`: on the null context, compute directly with `gen_params`;
otherwise look the key up in the cached `ParamsMap` (creating the map when
its `TypeId` slot is absent), serve hits from the cache and fill misses
with `gen_params`, recording the outcome in the `HitRate` statistics.
The key and the generation inputs are both
`(BaseField::size_in_bits(), TargetField::size_in_bits())`, here the
arguments `(base, target)`; mutation of the shared `cache_map` is modelled
by returning the updated reference.  `none` models a panic inside
`gen_params`. -/
def get_params (base target : Nat) (goal : OptimizationType)
    (cs : ConstraintSystemRef) : Option (NonNativeFieldParams × ConstraintSystemRef) :=
  match cs with
  | ConstraintSystemRef.None =>
    (gen_params base target goal).map fun p => (p, ConstraintSystemRef.None)
  | ConstraintSystemRef.CS big_map =>
    match big_map.params_map with
    | some map =>
      match mapGet map (base, target) with
      | some params =>
        some (params, ConstraintSystemRef.CS (HitRate.update big_map true))
      | none =>
        match gen_params base target goal with
        | none => none
        | some params =>
          let small_map := mapInsert map (base, target) params
          let big_map' := { big_map with params_map := some small_map }
          some (params, ConstraintSystemRef.CS (HitRate.update big_map' false))
    | none =>
      match gen_params base target goal with
      | none => none
      | some params =>
        let small_map := mapInsert ([] : ParamsMap) (base, target) params
        let big_map' := { big_map with params_map := some small_map }
        some (params, ConstraintSystemRef.CS (HitRate.update big_map' false))

/-- The stored decomposition for a key, read through both map layers. -/
def lookupParams (m : CacheMap) (k : Nat × Nat) : Option NonNativeFieldParams :=
  match m.params_map with
  | none => none
  | some pm => mapGet pm k

/-- Running a sequence of `get_params` requests (each a
`(base_bits, target_bits)` key) against a context, threading the updated
context through; `none` models a panic in some request. -/
def runRequests (goal : OptimizationType) :
    List (Nat × Nat) → ConstraintSystemRef → Option ConstraintSystemRef
  | [], cs => some cs
  | (base, target) :: rest, cs =>
    match get_params base target goal cs with
    | none => none
    | some (_, cs') => runRequests goal rest cs'

/-- The cost expression computed by the loop body, transcribed from the
loop with plain `Nat` arithmetic (valid whenever the body does not
panic). -/
def loopCost (base target : Nat) (goal : OptimizationType) (l : Nat) : Nat :=
  let num := (target + l - 1) / l
  let group := (base - 1 - surfeit - 1) / (2 * l)
  let ng := (2 * num - 1 + group - 1) / group
  match goal with
  | OptimizationType.Constraints =>
      2 * num - 1 + (ng + (ng - 1) * (l * 2 + 1 + 2 * surfeit) + 1)
  | OptimizationType.Density =>
      num * num / 2 + (3 * ng + (ng - 1) * (l * 2 + 1 + 2 * surfeit) + 2)

theorem checkedSub_of_le {a b : Nat} (h : b ≤ a) : checkedSub a b = some (a - b) := by
  simp [checkedSub, h]

theorem checkedDiv_of_ne {a b : Nat} (h : b ≠ 0) : checkedDiv a b = some (a / b) := by
  simp [checkedDiv, h]

theorem checkedSub_eq_some {a b c : Nat} : checkedSub a b = some c ↔ b ≤ a ∧ a - b = c := by
  unfold checkedSub
  split <;> simp_all

theorem checkedDiv_eq_some {a b c : Nat} : checkedDiv a b = some c ↔ b ≠ 0 ∧ a / b = c := by
  unfold checkedDiv
  split <;> simp_all

/-- Under the loop's preconditions (`limb_size` in the candidate range,
`target ≥ 1`, `base ≥ 12`) no checked operation fails and the body returns
the transcription `loopCost` together with `num_of_limbs`. -/
theorem loopBody_eq {base target l : Nat} (goal : OptimizationType)
    (hbase : 12 ≤ base) (ht : 1 ≤ target) (hl : 1 ≤ l)
    (hmax : l ≤ (base - 1 - surfeit - 1) / 2) :
    loopBody base target goal l =
      some (loopCost base target goal l, specNumLimbs target l) := by
  have hs : surfeit = 10 := rfl
  have h2l : 2 * l ≤ base - 1 - surfeit - 1 := by
    have h := (Nat.le_div_iff_mul_le (by norm_num : 0 < 2)).mp hmax
    omega
  have hnum : 1 ≤ (target + l - 1) / l :=
    (Nat.one_le_div_iff (by omega)).mpr (by omega)
  have hgroup : 1 ≤ (base - 1 - surfeit - 1) / (2 * l) :=
    (Nat.one_le_div_iff (by omega)).mpr h2l
  have h2num : 1 ≤ 2 * ((target + l - 1) / l) :=
    le_trans hnum (Nat.le_mul_of_pos_left _ (by norm_num))
  have hsum : 1 ≤ 2 * ((target + l - 1) / l) - 1 + (base - 1 - surfeit - 1) / (2 * l) :=
    le_trans hgroup (Nat.le_add_left _ _)
  have hng : 1 ≤ (2 * ((target + l - 1) / l) - 1 + (base - 1 - surfeit - 1) / (2 * l) - 1) /
      ((base - 1 - surfeit - 1) / (2 * l)) := by
    refine (Nat.one_le_div_iff (by omega)).mpr ?_
    refine Nat.le_sub_one_of_lt (Nat.lt_add_of_pos_left ?_)
    omega
  cases goal <;>
  · unfold loopBody
    rw [checkedSub_of_le (show 1 ≤ target + l by omega)]
    simp only [Option.some_bind]
    rw [checkedDiv_of_ne (show l ≠ 0 by omega)]
    simp only [Option.some_bind]
    rw [checkedSub_of_le (show 1 ≤ base by omega)]
    simp only [Option.some_bind]
    rw [checkedSub_of_le (show surfeit ≤ base - 1 by omega)]
    simp only [Option.some_bind]
    rw [checkedSub_of_le (show 1 ≤ base - 1 - surfeit by omega)]
    simp only [Option.some_bind]
    rw [checkedDiv_of_ne (show 2 * l ≠ 0 by omega)]
    simp only [Option.some_bind]
    rw [checkedSub_of_le h2num]
    simp only [Option.some_bind]
    rw [checkedSub_of_le hsum]
    simp only [Option.some_bind]
    rw [checkedDiv_of_ne (show (base - 1 - surfeit - 1) / (2 * l) ≠ 0 by omega)]
    simp only [Option.some_bind]
    rw [checkedSub_of_le hng]
    simp only [Option.some_bind]
    simp [loopCost, specNumLimbs]

/-- The loop's cost expression agrees with the specification's cost
formula. -/
theorem loopCost_eq_specCost (base target : Nat) (goal : OptimizationType) (l : Nat) :
    loopCost base target goal l = specCost base target goal l := by
  cases goal <;>
    simp only [loopCost, specCost, specNumLimbs, specGroupSize, specNumGroups] <;>
    ring

theorem solveAux_append (base target : Nat) (goal : OptimizationType)
    (L1 L2 : List Nat) (b : Option (Nat × Nat × Nat)) :
    solveAux base target goal (L1 ++ L2) b =
      (solveAux base target goal L1 b).bind (solveAux base target goal L2) := by
  induction L1 generalizing b with
  | nil => simp [solveAux]
  | cons x xs ih =>
    simp only [List.cons_append, solveAux]
    cases hx : loopBody base target goal x with
    | none => rfl
    | some p =>
      obtain ⟨tc, tn⟩ := p
      cases b with
      | none => exact ih _
      | some m =>
        obtain ⟨mc, ml, mn⟩ := m
        by_cases hlt : tc < mc
        · simp only [if_pos hlt]
          exact ih _
        · simp only [if_neg hlt]
          exact ih _

/-- The accumulation loop over `1..=max`, started from `None`, returns the
entry of the *smallest* limb size achieving the minimum cost, provided the
body succeeds (with cost `g` and limb count `h`) on every candidate. -/
theorem solveAux_range (base target : Nat) (goal : OptimizationType)
    (g k : Nat → Nat) (max : Nat) (hmax : 1 ≤ max)
    (hbody : ∀ l, 1 ≤ l → l ≤ max → loopBody base target goal l = some (g l, k l)) :
    ∃ c l n, solveAux base target goal (List.range' 1 max) none = some (some (c, l, n)) ∧
      1 ≤ l ∧ l ≤ max ∧ c = g l ∧ n = k l ∧
      (∀ l', 1 ≤ l' → l' ≤ max → c ≤ g l') ∧
      (∀ l', 1 ≤ l' → l' < l → c < g l') := by
  induction max with
  | zero => omega
  | succ m ih =>
    by_cases hm : m = 0
    · subst hm
      refine ⟨g 1, 1, k 1, ?_, le_refl 1, le_refl 1, rfl, rfl, ?_, ?_⟩
      · simp [solveAux, hbody 1 (le_refl 1) (le_refl 1)]
      · intro l' h1 h2
        have : l' = 1 := by omega
        subst this
        exact le_refl _
      · intro l' h1 h2
        omega
    · have hm1 : 1 ≤ m := by omega
      obtain ⟨c, l, n, hrun, hl1, hlm, hc, hn, hmin, hstrict⟩ :=
        ih hm1 (fun l hl hlm => hbody l hl (by omega))
      have hconcat : List.range' 1 (m + 1) = List.range' 1 m ++ [m + 1] := by
        rw [List.range'_1_concat]
        simp [Nat.add_comm]
      rw [hconcat, solveAux_append, hrun, Option.some_bind]
      have hb := hbody (m + 1) (by omega) (le_refl _)
      by_cases hlt : g (m + 1) < c
      · refine ⟨g (m + 1), m + 1, k (m + 1), ?_, by omega, le_refl _, rfl, rfl, ?_, ?_⟩
        · simp [solveAux, hb, hlt]
        · intro l' h1 h2
          by_cases hcase : l' ≤ m
          · exact le_trans (le_of_lt hlt) (hmin l' h1 hcase)
          · have : l' = m + 1 := by omega
            subst this
            exact le_refl _
        · intro l' h1 h2
          exact lt_of_lt_of_le hlt (hmin l' h1 (by omega))
      · refine ⟨c, l, n, ?_, hl1, by omega, hc, hn, ?_, hstrict⟩
        · simp [solveAux, hb, hlt]
        · intro l' h1 h2
          by_cases hcase : l' ≤ m
          · exact hmin l' h1 hcase
          · have : l' = m + 1 := by omega
            subst this
            omega

/-- Master characterization of `solve` on a fresh search instance with a
non-empty candidate range (`base ≥ 14`) and a positive target bit length:
it returns the smallest limb size of minimal specification cost, together
with the ceiling limb count. -/
theorem solve_char (base target : Nat) (goal : OptimizationType)
    (h14 : 14 ≤ base) (ht : 1 ≤ target) :
    ∃ l n, (ParamsSearching.new base target goal).solve =
        some ⟨base, target, goal, some n, some l⟩ ∧
      n = specNumLimbs target l ∧ 1 ≤ l ∧ l ≤ (base - 1 - surfeit - 1) / 2 ∧
      (∀ l', 1 ≤ l' → l' ≤ (base - 1 - surfeit - 1) / 2 →
        specCost base target goal l ≤ specCost base target goal l') ∧
      (∀ l', 1 ≤ l' → l' < l →
        specCost base target goal l < specCost base target goal l') := by
  have hs : surfeit = 10 := rfl
  have hmax1 : 1 ≤ (base - 1 - surfeit - 1) / 2 :=
    (Nat.one_le_div_iff (by norm_num)).mpr (by omega)
  obtain ⟨c, l, n, hrun, hl1, hlm, hc, hn, hmin, hstrict⟩ :=
    solveAux_range base target goal
      (specCost base target goal) (specNumLimbs target)
      ((base - 1 - surfeit - 1) / 2) hmax1
      (fun l hl hlm => by
        rw [loopBody_eq goal (by omega) ht hl hlm, loopCost_eq_specCost])
  refine ⟨l, n, ?_, hn, hl1, hlm, ?_, ?_⟩
  · unfold ParamsSearching.new ParamsSearching.solve
    rw [checkedSub_of_le (show 1 ≤ base by omega)]
    simp only [Option.some_bind]
    rw [checkedSub_of_le (show surfeit ≤ base - 1 by omega)]
    simp only [Option.some_bind]
    rw [checkedSub_of_le (show 1 ≤ base - 1 - surfeit by omega)]
    simp only [Option.some_bind]
    rw [hrun]
    simp only [Option.some_bind, Option.map_some']
  · intro l' h1 h2
    exact hc ▸ hmin l' h1 h2
  · intro l' h1 h2
    exact hc ▸ hstrict l' h1 h2

/-- Any entry ever held in the accumulator of the loop (over limb sizes
that are all positive) records the output of a successful body run. -/
theorem solveAux_inv (base target : Nat) (goal : OptimizationType) :
    ∀ (L : List Nat) (b b' : Option (Nat × Nat × Nat)),
      (∀ x ∈ L, 1 ≤ x) →
      (∀ c l n, b = some (c, l, n) → 1 ≤ l ∧ loopBody base target goal l = some (c, n)) →
      solveAux base target goal L b = some b' →
      (∀ c l n, b' = some (c, l, n) → 1 ≤ l ∧ loopBody base target goal l = some (c, n)) := by
  intro L
  induction L with
  | nil =>
    intro b b' _ hinv hrun
    simp only [solveAux, Option.some_inj] at hrun
    exact hrun ▸ hinv
  | cons x xs ih =>
    intro b b' hpos hinv hrun
    have hxpos : 1 ≤ x := hpos x (by simp)
    have hxs : ∀ y ∈ xs, 1 ≤ y := fun y hy => hpos y (by simp [hy])
    simp only [solveAux] at hrun
    split at hrun
    · exact absurd hrun (by simp)
    · rename_i tc tn hx
      split at hrun
      · exact ih _ _ hxs
          (fun c l n h => by
            obtain ⟨h1, h2, h3⟩ : tc = c ∧ x = l ∧ tn = n := by
              simpa using h
            subst h1; subst h2; subst h3
            exact ⟨hxpos, hx⟩) hrun
      · rename_i mc ml mn
        split at hrun
        · exact ih _ _ hxs
            (fun c l n h => by
              obtain ⟨h1, h2, h3⟩ : tc = c ∧ x = l ∧ tn = n := by
                simpa using h
              subst h1; subst h2; subst h3
              exact ⟨hxpos, hx⟩) hrun
        · exact ih _ _ hxs (fun c l n h => hinv c l n (by simpa using h)) hrun

/-- A successful body run always reports the ceiling limb count
`(target + l - 1) / l` as its second component. -/
theorem loopBody_num {base target l c n : Nat} {goal : OptimizationType}
    (h : loopBody base target goal l = some (c, n)) :
    n = (target + l - 1) / l := by
  unfold loopBody at h
  simp only [Option.bind_eq_some, checkedSub_eq_some, checkedDiv_eq_some] at h
  obtain ⟨a, ⟨-, ha⟩, num, ⟨-, hnum⟩, b1, ⟨-, hb1⟩, b2, ⟨-, hb2⟩, b3, ⟨-, hb3⟩,
    gsz, ⟨-, hgsz⟩, tnl, ⟨-, htnl⟩, c1, ⟨-, hc1⟩, ng, ⟨-, hng⟩, gm1, ⟨-, hgm1⟩, hrest⟩ := h
  cases goal with
  | Constraints =>
    simp only [Option.bind_eq_some, checkedSub_eq_some] at hrest
    obtain ⟨costA, ⟨-, -⟩, hfin⟩ := hrest
    simp only [Option.some_inj, Prod.mk.injEq] at hfin
    rw [← hfin.2, ← hnum, ← ha]
  | Density =>
    simp only [Option.some_inj, Prod.mk.injEq] at hrest
    rw [← hrest.2, ← hnum, ← ha]

/-- Capacity arithmetic: the ceiling limb count times the limb size covers
the target bit length. -/
theorem ceil_capacity {target l : Nat} (hl : 1 ≤ l) :
    target ≤ (target + l - 1) / l * l := by
  obtain ⟨w, hw⟩ : ∃ w, w = target + l - 1 := ⟨_, rfl⟩
  rw [← hw]
  have hmod := Nat.div_add_mod w l
  have hcomm : w / l * l = l * (w / l) := Nat.mul_comm _ _
  have hlt := Nat.mod_lt w (show 0 < l by omega)
  omega

/-- A loop started on a `some` accumulator never returns to `None`. -/
theorem solveAux_some (base target : Nat) (goal : OptimizationType) :
    ∀ (L : List Nat) (s : Nat × Nat × Nat) (b' : Option (Nat × Nat × Nat)),
      solveAux base target goal L (some s) = some b' → ∃ r, b' = some r := by
  intro L
  induction L with
  | nil =>
    intro s b' hrun
    simp only [solveAux, Option.some_inj] at hrun
    exact ⟨s, hrun.symm⟩
  | cons x xs ih =>
    intro s b' hrun
    simp only [solveAux] at hrun
    split at hrun
    · exact absurd hrun (by simp)
    · split at hrun
      · exact ih _ _ hrun
      · exact ih _ _ hrun

/-- A successful loop over a non-empty candidate list always produces a
recorded minimum. -/
theorem solveAux_cons_some (base target : Nat) (goal : OptimizationType)
    (x : Nat) (rest : List Nat) (b' : Option (Nat × Nat × Nat))
    (hrun : solveAux base target goal (x :: rest) none = some b') :
    ∃ r, b' = some r := by
  simp only [solveAux] at hrun
  split at hrun
  · exact absurd hrun (by simp)
  · exact solveAux_some base target goal _ _ _ hrun

/-- With `target_field_prime_bit_length = 0` and a non-empty candidate
range, the very first loop iteration computes `num_of_limbs = 0` and the
checked subtraction `2 * num_of_limbs - 1` fails. -/
theorem loopBody_target_zero {base : Nat} (goal : OptimizationType)
    (hbase : 12 ≤ base) : loopBody base 0 goal 1 = none := by
  have hs : surfeit = 10 := rfl
  unfold loopBody
  rw [checkedSub_of_le (show 1 ≤ 0 + 1 by omega)]
  simp only [Option.some_bind]
  rw [checkedDiv_of_ne (show (1 : Nat) ≠ 0 by omega)]
  simp only [Option.some_bind]
  rw [checkedSub_of_le (show 1 ≤ base by omega)]
  simp only [Option.some_bind]
  rw [checkedSub_of_le (show surfeit ≤ base - 1 by omega)]
  simp only [Option.some_bind]
  rw [checkedSub_of_le (show 1 ≤ base - 1 - surfeit by omega)]
  simp only [Option.some_bind]
  rw [checkedDiv_of_ne (show 2 * 1 ≠ 0 by omega)]
  simp only [Option.some_bind]
  norm_num [checkedSub]

/-- C1: whenever the search produces a result, the returned decomposition
has sufficient capacity: `num_limbs * bits_per_limb ≥ target_bits`. -/
theorem claim_C1 (base target : Nat) (goal : OptimizationType)
    (p' : ParamsSearching)
    (hsolve : (ParamsSearching.new base target goal).solve = some p')
    (n l : Nat) (hn : p'.num_of_limbs = some n) (hl : p'.limb_size = some l) :
    target ≤ n * l := by
  unfold ParamsSearching.new ParamsSearching.solve at hsolve
  simp only [Option.bind_eq_some, checkedSub_eq_some] at hsolve
  obtain ⟨b1, ⟨-, -⟩, b2, ⟨-, -⟩, b3, ⟨-, -⟩, best, hbest, hfin⟩ := hsolve
  rw [Option.some_inj] at hfin
  subst hfin
  simp only at hn hl
  rw [Option.map_eq_some'] at hn hl
  obtain ⟨r, hr, hrn⟩ := hn
  obtain ⟨r', hr', hrl⟩ := hl
  rw [hr] at hr'
  rw [Option.some_inj] at hr'
  subst hr'
  obtain ⟨c0, l0, n0⟩ := r
  simp only at hrn hrl
  subst hrn
  subst hrl
  have hinv := solveAux_inv base target goal (List.range' 1 (b3 / 2)) none best
    (fun x hx => by rw [List.mem_range'_1] at hx; omega)
    (fun c l n h => absurd h (by simp))
    hbest c0 l0 n0 hr
  obtain ⟨hl1, hbody⟩ := hinv
  rw [loopBody_num hbody]
  exact ceil_capacity hl1

/-- C2: for a non-empty candidate range and `target_bits ≥ 1`, the search
returns a pair `(limb_size, num_limbs)` with `num_limbs` the ceiling
quotient, `limb_size` inside the candidate range, and the specification's
cost formula minimal at `limb_size` over the whole candidate range. -/
theorem claim_C2 (base target : Nat) (goal : OptimizationType)
    (hne : 1 ≤ (base - 1 - surfeit - 1) / 2) (ht : 1 ≤ target) :
    ∃ l n, (ParamsSearching.new base target goal).solve =
        some ⟨base, target, goal, some n, some l⟩ ∧
      n = (target + l - 1) / l ∧
      1 ≤ l ∧ l ≤ (base - 1 - surfeit - 1) / 2 ∧
      ∀ l', 1 ≤ l' → l' ≤ (base - 1 - surfeit - 1) / 2 →
        specCost base target goal l ≤ specCost base target goal l' := by
  have hs : surfeit = 10 := rfl
  have h14 : 14 ≤ base := by omega
  obtain ⟨l, n, hsolve, hn, hl1, hlm, hmin, -⟩ := solve_char base target goal h14 ht
  exact ⟨l, n, hsolve, hn, hl1, hlm, hmin⟩

/-- C3: ties are broken towards the smallest limb size: any other
candidate of equal specification cost is at least the returned
`limb_size`, because the improvement test is a strict less-than. -/
theorem claim_C3 (base target : Nat) (goal : OptimizationType)
    (hne : 1 ≤ (base - 1 - surfeit - 1) / 2) (ht : 1 ≤ target) :
    ∃ l n, (ParamsSearching.new base target goal).solve =
        some ⟨base, target, goal, some n, some l⟩ ∧
      ∀ l', 1 ≤ l' → l' ≤ (base - 1 - surfeit - 1) / 2 →
        specCost base target goal l' = specCost base target goal l → l ≤ l' := by
  have hs : surfeit = 10 := rfl
  have h14 : 14 ≤ base := by omega
  obtain ⟨l, n, hsolve, -, -, -, -, hstrict⟩ := solve_char base target goal h14 ht
  refine ⟨l, n, hsolve, fun l' h1 h2 heq => ?_⟩
  by_contra hcon
  have hlt : l' < l := by omega
  have := hstrict l' h1 hlt
  omega

/-- C4: with a non-empty candidate range, a completed search has both
solution fields set, and (for any positive target width) `gen_params`
completes without its unwraps failing. -/
theorem claim_C4 (base target : Nat) (goal : OptimizationType)
    (hne : 1 ≤ (base - 1 - surfeit - 1) / 2) :
    (∀ p', (ParamsSearching.new base target goal).solve = some p' →
      (∃ n, p'.num_of_limbs = some n) ∧ (∃ l, p'.limb_size = some l)) ∧
    (1 ≤ target → ∃ d, gen_params base target goal = some d) := by
  have hs : surfeit = 10 := rfl
  have h14 : 14 ≤ base := by omega
  constructor
  · intro p' hsolve
    unfold ParamsSearching.new ParamsSearching.solve at hsolve
    simp only [Option.bind_eq_some, checkedSub_eq_some] at hsolve
    obtain ⟨b1, ⟨-, hb1⟩, b2, ⟨-, hb2⟩, b3, ⟨-, hb3⟩, best, hbest, hfin⟩ := hsolve
    rw [Option.some_inj] at hfin
    subst hfin
    have hb3v : b3 = base - 1 - surfeit - 1 := by omega
    obtain ⟨m, hm⟩ : ∃ m, b3 / 2 = m + 1 := ⟨b3 / 2 - 1, by omega⟩
    rw [hm, List.range'_succ] at hbest
    obtain ⟨r, hr⟩ := solveAux_cons_some base target goal _ _ _ hbest
    subst hr
    exact ⟨⟨r.2.2, by simp⟩, ⟨r.2.1, by simp⟩⟩
  · intro ht
    obtain ⟨l, n, hsolve, -, -, -, -, -⟩ := solve_char base target goal h14 ht
    exact ⟨⟨n, l⟩, by simp [gen_params, hsolve]⟩

/-- C10: the search is not total in `target_bits`: with `target_bits = 0`
and a non-empty candidate range the first iteration underflows at
`2 * num_of_limbs - 1` (a panic), while for every `target_bits ≥ 1` it
completes. -/
theorem claim_C10 (base : Nat) (goal : OptimizationType) (h14 : 14 ≤ base) :
    (ParamsSearching.new base 0 goal).solve = none ∧
    ∀ target, 1 ≤ target →
      ∃ p', (ParamsSearching.new base target goal).solve = some p' := by
  have hs : surfeit = 10 := rfl
  constructor
  · unfold ParamsSearching.new ParamsSearching.solve
    rw [checkedSub_of_le (show 1 ≤ base by omega)]
    simp only [Option.some_bind]
    rw [checkedSub_of_le (show surfeit ≤ base - 1 by omega)]
    simp only [Option.some_bind]
    rw [checkedSub_of_le (show 1 ≤ base - 1 - surfeit by omega)]
    simp only [Option.some_bind]
    obtain ⟨m, hm⟩ : ∃ m, (base - 1 - surfeit - 1) / 2 = m + 1 :=
      ⟨(base - 1 - surfeit - 1) / 2 - 1, by omega⟩
    rw [hm, List.range'_succ]
    simp only [solveAux]
    rw [loopBody_target_zero goal (by omega)]
    rfl
  · intro target ht
    obtain ⟨l, n, hsolve, -⟩ := solve_char base target goal (by omega) ht
    exact ⟨_, hsolve⟩

/-- C5 counterexample: at `base_bits = 20` (the claim's own example of a
base field that "must yield the configuration error") the parameter
computation succeeds and returns a fully set decomposition — there is no
error path in the code at all. -/
theorem claim_C5_counterexample :
    gen_params 20 256 OptimizationType.Constraints = some ⟨128, 2⟩ := by
  rfl

/-- C5 (amended): the truly empty candidate range is
`base_bits ∈ {12, 13}` (where `max_limb_size = 0`), and there the code
produces no typed error: `solve` completes with both solution fields left
unset, and `gen_params` fails at its `unwrap` calls (a panic, modelled as
`none`) instead of returning a configuration error. -/
theorem claim_C5_amended (base target : Nat) (goal : OptimizationType)
    (h12 : 12 ≤ base) (h13 : base ≤ 13) :
    (ParamsSearching.new base target goal).solve =
      some ⟨base, target, goal, none, none⟩ ∧
    gen_params base target goal = none := by
  have hs : surfeit = 10 := rfl
  have hsolve : (ParamsSearching.new base target goal).solve =
      some ⟨base, target, goal, none, none⟩ := by
    unfold ParamsSearching.new ParamsSearching.solve
    rw [checkedSub_of_le (show 1 ≤ base by omega)]
    simp only [Option.some_bind]
    rw [checkedSub_of_le (show surfeit ≤ base - 1 by omega)]
    simp only [Option.some_bind]
    rw [checkedSub_of_le (show 1 ≤ base - 1 - surfeit by omega)]
    simp only [Option.some_bind]
    rw [show (base - 1 - surfeit - 1) / 2 = 0 by omega]
    simp [solveAux]
  exact ⟨hsolve, by simp [gen_params, hsolve]⟩

/-- Witness for C1: at `base_bits = 20`, `target_bits = 16` the search
returns `(num_limbs, bits_per_limb) = (4, 4)` and `16 ≤ 4 * 4`. -/
theorem claim_C1_witness :
    16 ≤ 4 * 4 ∧
    (ParamsSearching.new 20 16 OptimizationType.Constraints).solve =
      some ⟨20, 16, OptimizationType.Constraints, some 4, some 4⟩ :=
  ⟨claim_C1 20 16 OptimizationType.Constraints
      ⟨20, 16, OptimizationType.Constraints, some 4, some 4⟩ (by rfl) 4 4 rfl rfl,
    by rfl⟩

/-- Witness for C2: at `base_bits = 20`, `target_bits = 16` the search
returns limb size `4`, whose cost is minimal; in particular it does not
exceed the cost of limb size `1`. -/
theorem claim_C2_witness :
    (ParamsSearching.new 20 16 OptimizationType.Constraints).solve =
      some ⟨20, 16, OptimizationType.Constraints, some 4, some 4⟩ ∧
    specCost 20 16 OptimizationType.Constraints 4 ≤
      specCost 20 16 OptimizationType.Constraints 1 := by
  obtain ⟨l, n, hsolve, -, -, -, hmin⟩ :=
    claim_C2 20 16 OptimizationType.Constraints (by decide) (by decide)
  have hval : (ParamsSearching.new 20 16 OptimizationType.Constraints).solve =
      some ⟨20, 16, OptimizationType.Constraints, some 4, some 4⟩ := by rfl
  have h := hsolve.symm.trans hval
  simp only [Option.some_inj, ParamsSearching.mk.injEq, true_and] at h
  obtain ⟨hn, hl⟩ := h
  subst hn
  subst hl
  exact ⟨hval, hmin 1 (by decide) (by decide)⟩

/-- Witness for C3: at `base_bits = 16`, `target_bits = 28` limb sizes `1`
and `2` tie at the minimal cost `705`, and the search keeps the smaller
one. -/
theorem claim_C3_witness :
    (ParamsSearching.new 16 28 OptimizationType.Constraints).solve =
      some ⟨16, 28, OptimizationType.Constraints, some 28, some 1⟩ ∧
    specCost 16 28 OptimizationType.Constraints 2 =
      specCost 16 28 OptimizationType.Constraints 1 ∧ (1 : Nat) ≤ 2 := by
  obtain ⟨l, n, hsolve, htie⟩ :=
    claim_C3 16 28 OptimizationType.Constraints (by decide) (by decide)
  have hval : (ParamsSearching.new 16 28 OptimizationType.Constraints).solve =
      some ⟨16, 28, OptimizationType.Constraints, some 28, some 1⟩ := by rfl
  have h := hsolve.symm.trans hval
  simp only [Option.some_inj, ParamsSearching.mk.injEq, true_and] at h
  obtain ⟨hn, hl⟩ := h
  subst hn
  subst hl
  exact ⟨hval, by decide, htie 2 (by decide) (by decide) (by decide)⟩

/-- Witness for C4: at `base_bits = 20`, `target_bits = 16` the candidate
range is non-empty and `gen_params` completes. -/
theorem claim_C4_witness :
    (gen_params 20 16 OptimizationType.Constraints).isSome = true := by
  obtain ⟨d, hd⟩ := (claim_C4 20 16 OptimizationType.Constraints (by decide)).2 (by decide)
  rw [hd]
  rfl

/-- Witness for C5 (amended): at `base_bits = 13` the candidate range is
empty, `solve` leaves the solution fields unset, and `gen_params` yields
no decomposition. -/
theorem claim_C5_witness :
    (ParamsSearching.new 13 7 OptimizationType.Density).solve =
      some ⟨13, 7, OptimizationType.Density, none, none⟩ ∧
    gen_params 13 7 OptimizationType.Density = none :=
  claim_C5_amended 13 7 OptimizationType.Density (by decide) (by decide)

/-- Witness for C10: at `base_bits = 14` (non-empty candidate range) the
search with `target_bits = 0` panics on the underflow. -/
theorem claim_C10_witness :
    (ParamsSearching.new 14 0 OptimizationType.Constraints).solve = none :=
  (claim_C10 14 OptimizationType.Constraints (by decide)).1

theorem mapGet_insert_self (m : ParamsMap) (k : Nat × Nat) (v : NonNativeFieldParams) :
    mapGet (mapInsert m k v) k = some v := by
  induction m with
  | nil => simp [mapInsert, mapGet]
  | cons e rest ih =>
    obtain ⟨k', v'⟩ := e
    by_cases h : k' = k
    · subst h
      simp [mapInsert, mapGet]
    · simp [mapInsert, mapGet, h, ih]

theorem mapGet_insert_ne (m : ParamsMap) (k k' : Nat × Nat) (v : NonNativeFieldParams)
    (h : k' ≠ k) : mapGet (mapInsert m k v) k' = mapGet m k' := by
  have h' : k ≠ k' := Ne.symm h
  induction m with
  | nil => simp [mapInsert, mapGet, h']
  | cons e rest ih =>
    obtain ⟨k0, v0⟩ := e
    by_cases h0 : k0 = k
    · subst h0
      simp [mapInsert, mapGet, h']
    · simp [mapInsert, mapGet, h0, ih]

theorem update_params_map (m : CacheMap) (b : Bool) :
    (HitRate.update m b).params_map = m.params_map := by
  obtain ⟨pm, hr⟩ := m
  cases hr with
  | none => rfl
  | some s => cases b <;> rfl

theorem lookupParams_update (m : CacheMap) (b : Bool) (k : Nat × Nat) :
    lookupParams (HitRate.update m b) k = lookupParams m k := by
  unfold lookupParams
  rw [update_params_map]

theorem update_hit_rate (m : CacheMap) (s : HitRate) (h : m.hit_rate = some s) (b : Bool) :
    (HitRate.update m b).hit_rate =
      some (if b then ⟨s.hit + 1, s.miss⟩ else ⟨s.hit, s.miss + 1⟩) := by
  obtain ⟨pm, hr⟩ := m
  simp only at h
  subst h
  cases b <;> rfl

/-- A cache hit: the stored value is returned and only the statistics
change. -/
theorem get_params_hit {base target : Nat} (goal : OptimizationType) {m : CacheMap}
    {p : NonNativeFieldParams} (h : lookupParams m (base, target) = some p) :
    get_params base target goal (ConstraintSystemRef.CS m) =
      some (p, ConstraintSystemRef.CS (HitRate.update m true)) := by
  obtain ⟨pm, hr⟩ := m
  cases pm with
  | none => exact absurd h (by simp [lookupParams])
  | some map =>
    simp only [lookupParams] at h
    simp only [get_params]
    rw [h]

/-- A cache miss with successful generation: the generated value is
returned, inserted under the key, and a miss is recorded. -/
theorem get_params_miss {base target : Nat} (goal : OptimizationType) {m : CacheMap}
    {p : NonNativeFieldParams} (h : lookupParams m (base, target) = none)
    (hgen : gen_params base target goal = some p) :
    get_params base target goal (ConstraintSystemRef.CS m) =
      some (p, ConstraintSystemRef.CS (HitRate.update
        ⟨some (mapInsert (m.params_map.getD []) (base, target) p), m.hit_rate⟩ false)) := by
  obtain ⟨pm, hr⟩ := m
  cases pm with
  | none =>
    simp only [get_params]
    rw [hgen]
    rfl
  | some map =>
    simp only [lookupParams] at h
    simp only [get_params]
    rw [h, hgen]
    rfl

/-- After a miss the key maps to the generated value and every other key
keeps its previous binding. -/
theorem lookupParams_after_miss (m : CacheMap) (base target : Nat)
    (p : NonNativeFieldParams) (b : Bool) (k : Nat × Nat) :
    lookupParams (HitRate.update
        ⟨some (mapInsert (m.params_map.getD []) (base, target) p), m.hit_rate⟩ b) k =
      if k = (base, target) then some p
      else lookupParams m k := by
  rw [lookupParams_update]
  unfold lookupParams
  simp only
  by_cases hk : k = (base, target)
  · subst hk
    simp [mapGet_insert_self]
  · rw [if_neg hk, mapGet_insert_ne _ _ _ _ hk]
    obtain ⟨pm, hr⟩ := m
    cases pm with
    | none => simp [mapGet]
    | some map => rfl

/-- A miss whose generation panics makes the whole lookup panic. -/
theorem get_params_gen_none {base target : Nat} (goal : OptimizationType) {m : CacheMap}
    (hlook : lookupParams m (base, target) = none)
    (hgen : gen_params base target goal = none) :
    get_params base target goal (ConstraintSystemRef.CS m) = none := by
  obtain ⟨pm, hr⟩ := m
  cases pm with
  | none =>
    simp only [get_params]
    rw [hgen]
  | some map =>
    simp only [lookupParams] at hlook
    simp only [get_params]
    rw [hlook, hgen]

/-- One `get_params` call never removes or changes an existing binding. -/
theorem get_params_preserve {base target : Nat} (goal : OptimizationType) {m : CacheMap}
    {r : NonNativeFieldParams} {cs' : ConstraintSystemRef}
    (h : get_params base target goal (ConstraintSystemRef.CS m) = some (r, cs')) :
    ∃ m', cs' = ConstraintSystemRef.CS m' ∧
      ∀ k q, lookupParams m k = some q → lookupParams m' k = some q := by
  cases hlook : lookupParams m (base, target) with
  | some p =>
    rw [get_params_hit goal hlook] at h
    simp only [Option.some_inj, Prod.mk.injEq] at h
    obtain ⟨-, hcs⟩ := h
    refine ⟨_, hcs.symm, fun k q hq => ?_⟩
    rw [lookupParams_update]
    exact hq
  | none =>
    cases hgen : gen_params base target goal with
    | none =>
      rw [get_params_gen_none goal hlook hgen] at h
      exact absurd h (by simp)
    | some p =>
      rw [get_params_miss goal hlook hgen] at h
      simp only [Option.some_inj, Prod.mk.injEq] at h
      obtain ⟨-, hcs⟩ := h
      refine ⟨_, hcs.symm, fun k q hq => ?_⟩
      rw [lookupParams_after_miss]
      by_cases hk : k = (base, target)
      · subst hk
        rw [hlook] at hq
        exact absurd hq (by simp)
      · rw [if_neg hk]
        exact hq

theorem runRequests_append (goal : OptimizationType) (L1 L2 : List (Nat × Nat))
    (cs : ConstraintSystemRef) :
    runRequests goal (L1 ++ L2) cs =
      (runRequests goal L1 cs).bind (runRequests goal L2) := by
  induction L1 generalizing cs with
  | nil => simp [runRequests]
  | cons x xs ih =>
    obtain ⟨b, t⟩ := x
    simp only [List.cons_append, runRequests]
    cases h : get_params b t goal cs with
    | none => rfl
    | some rc =>
      obtain ⟨r, cs'⟩ := rc
      exact ih cs'

/-- A sequence of requests never removes or changes an existing binding. -/
theorem runRequests_preserve (goal : OptimizationType) :
    ∀ (reqs : List (Nat × Nat)) (m : CacheMap) (cs' : ConstraintSystemRef),
      runRequests goal reqs (ConstraintSystemRef.CS m) = some cs' →
      ∃ m', cs' = ConstraintSystemRef.CS m' ∧
        ∀ k q, lookupParams m k = some q → lookupParams m' k = some q := by
  intro reqs
  induction reqs with
  | nil =>
    intro m cs' h
    simp only [runRequests, Option.some_inj] at h
    exact ⟨m, h.symm, fun k q hq => hq⟩
  | cons x xs ih =>
    intro m cs' h
    obtain ⟨b, t⟩ := x
    simp only [runRequests] at h
    split at h
    · exact absurd h (by simp)
    · rename_i r cs1 hg
      obtain ⟨m1, hm1, hpres1⟩ := get_params_preserve goal hg
      subst hm1
      obtain ⟨m', hm', hpres2⟩ := ih m1 cs' h
      exact ⟨m', hm', fun k q hq => hpres2 k q (hpres1 k q hq)⟩

/-- C6: cache idempotence.  A fresh key's first lookup returns exactly the
generated value and stores it; a hit returns the stored value and changes
only the statistics; and no later sequence of lookups evicts or overwrites
a stored binding. -/
theorem claim_C6 (base target : Nat) (goal : OptimizationType) (m : CacheMap) :
    (∀ p, lookupParams m (base, target) = none → gen_params base target goal = some p →
      ∃ m', get_params base target goal (ConstraintSystemRef.CS m) =
          some (p, ConstraintSystemRef.CS m') ∧ lookupParams m' (base, target) = some p) ∧
    (∀ p, lookupParams m (base, target) = some p →
      get_params base target goal (ConstraintSystemRef.CS m) =
        some (p, ConstraintSystemRef.CS (HitRate.update m true)) ∧
      lookupParams (HitRate.update m true) (base, target) = some p) ∧
    (∀ reqs cs' k q, runRequests goal reqs (ConstraintSystemRef.CS m) = some cs' →
      lookupParams m k = some q →
      ∃ m', cs' = ConstraintSystemRef.CS m' ∧ lookupParams m' k = some q) := by
  refine ⟨fun p hfresh hgen => ?_, fun p hhit => ?_, fun reqs cs' k q hrun hq => ?_⟩
  · refine ⟨_, get_params_miss goal hfresh hgen, ?_⟩
    rw [lookupParams_after_miss]
    simp
  · exact ⟨get_params_hit goal hhit, by rw [lookupParams_update]; exact hhit⟩
  · obtain ⟨m', hm', hpres⟩ := runRequests_preserve goal reqs m cs' hrun
    exact ⟨m', hm', hpres k q hq⟩

/-- C7: with the null context, `get_params` is exactly the direct
`gen_params` computation; no state is read or written. -/
theorem claim_C7 (base target : Nat) (goal : OptimizationType) :
    get_params base target goal ConstraintSystemRef.None =
      Option.map (fun p => (p, ConstraintSystemRef.None)) (gen_params base target goal) :=
  rfl

/-- C9: `HitRate::update` increments exactly the selected counter when one
is installed, is a silent no-op when none is, and never touches the cached
parameter map. -/
theorem claim_C9 (m : CacheMap) (b : Bool) :
    (HitRate.update m b).params_map = m.params_map ∧
    (m.hit_rate = none → HitRate.update m b = m) ∧
    (∀ s, m.hit_rate = some s → (HitRate.update m b).hit_rate =
      some (if b then ⟨s.hit + 1, s.miss⟩ else ⟨s.hit, s.miss + 1⟩)) := by
  refine ⟨update_params_map m b, fun hnone => ?_, fun s hs => update_hit_rate m s hs b⟩
  obtain ⟨pm, hr⟩ := m
  simp only at hnone
  subst hnone
  rfl

/-- Running pairwise-distinct fresh keys records one miss each, leaves all
those keys present afterwards, and preserves existing bindings. -/
theorem runRequests_fresh (goal : OptimizationType) :
    ∀ (reqs : List (Nat × Nat)) (m : CacheMap) (h mi : Nat),
      m.hit_rate = some ⟨h, mi⟩ →
      reqs.Nodup →
      (∀ k ∈ reqs, lookupParams m k = none) →
      (∀ k ∈ reqs, ∃ p, gen_params k.1 k.2 goal = some p) →
      ∃ m', runRequests goal reqs (ConstraintSystemRef.CS m) =
          some (ConstraintSystemRef.CS m') ∧
        m'.hit_rate = some ⟨h, mi + reqs.length⟩ ∧
        (∀ k ∈ reqs, (lookupParams m' k).isSome = true) ∧
        (∀ k q, lookupParams m k = some q → lookupParams m' k = some q) := by
  intro reqs
  induction reqs with
  | nil =>
    intro m h mi hhr _ _ _
    exact ⟨m, rfl, by simpa using hhr, by simp, fun k q hq => hq⟩
  | cons x xs ih =>
    intro m h mi hhr hnodup hfresh hgen
    obtain ⟨b, t⟩ := x
    obtain ⟨hnotmem, hnodup'⟩ := List.nodup_cons.mp hnodup
    obtain ⟨p, hp⟩ := hgen (b, t) (by simp)
    have hfx : lookupParams m (b, t) = none := hfresh (b, t) (by simp)
    have hstep := get_params_miss goal hfx hp
    have hm1look : ∀ k, lookupParams (HitRate.update
        ⟨some (mapInsert (m.params_map.getD []) (b, t) p), m.hit_rate⟩ false) k =
          if k = (b, t) then some p else lookupParams m k :=
      fun k => lookupParams_after_miss m b t p false k
    have hm1hr : (HitRate.update
        ⟨some (mapInsert (m.params_map.getD []) (b, t) p), m.hit_rate⟩ false).hit_rate =
          some ⟨h, mi + 1⟩ := by
      rw [update_hit_rate _ ⟨h, mi⟩ (by simpa using hhr) false]
      rfl
    obtain ⟨m', hrun, hhr', hpresence, hpres⟩ :=
      ih _ h (mi + 1) hm1hr hnodup'
        (fun k hk => by
          rw [hm1look k, if_neg (fun hEq => hnotmem (by rw [← hEq]; exact hk))]
          exact hfresh k (by simp [hk]))
        (fun k hk => hgen k (by simp [hk]))
    refine ⟨m', ?_, ?_, ?_, ?_⟩
    · simp only [runRequests]
      rw [hstep]
      exact hrun
    · rw [hhr']
      have : mi + 1 + xs.length = mi + (xs.length + 1) := by omega
      rw [this]
      rfl
    · intro k hk
      rcases List.mem_cons.mp hk with hk1 | hk2
      · subst hk1
        have hsome := hpres (b, t) p (by rw [hm1look (b, t)]; simp)
        rw [hsome]
        rfl
      · exact hpresence k hk2
    · intro k q hq
      refine hpres k q ?_
      rw [hm1look k]
      have hkne : k ≠ (b, t) := fun hEq => by
        rw [hEq, hfx] at hq
        exact absurd hq (by simp)
      rw [if_neg hkne]
      exact hq

/-- Running keys that are all present records one hit each and leaves the
stored bindings untouched. -/
theorem runRequests_hits (goal : OptimizationType) :
    ∀ (reqs : List (Nat × Nat)) (m : CacheMap) (h mi : Nat),
      m.hit_rate = some ⟨h, mi⟩ →
      (∀ k ∈ reqs, (lookupParams m k).isSome = true) →
      ∃ m', runRequests goal reqs (ConstraintSystemRef.CS m) =
          some (ConstraintSystemRef.CS m') ∧
        m'.hit_rate = some ⟨h + reqs.length, mi⟩ := by
  intro reqs
  induction reqs with
  | nil =>
    intro m h mi hhr _
    exact ⟨m, rfl, by simpa using hhr⟩
  | cons x xs ih =>
    intro m h mi hhr hpresent
    obtain ⟨b, t⟩ := x
    have hx := hpresent (b, t) (by simp)
    obtain ⟨p, hp⟩ := Option.isSome_iff_exists.mp hx
    have hstep := get_params_hit goal hp
    have hm1hr : (HitRate.update m true).hit_rate = some ⟨h + 1, mi⟩ := by
      rw [update_hit_rate m ⟨h, mi⟩ hhr true]
      rfl
    obtain ⟨m', hrun, hhr'⟩ :=
      ih (HitRate.update m true) (h + 1) mi hm1hr
        (fun k hk => by
          rw [lookupParams_update]
          exact hpresent k (by simp [hk]))
    refine ⟨m', ?_, ?_⟩
    · simp only [runRequests]
      rw [hstep]
      exact hrun
    · rw [hhr']
      have : h + 1 + xs.length = h + (xs.length + 1) := by omega
      rw [this]
      rfl

/-- C8: starting from a context with an activated, zeroed counter and an
empty parameter cache, `n` pairwise-distinct lookups followed by `m`
lookups of previously-seen keys leave the counter at
`hit = m`, `miss = n`. -/
theorem claim_C8 (goal : OptimizationType) (reqs1 reqs2 : List (Nat × Nat))
    (hnodup : reqs1.Nodup)
    (hsub : ∀ k ∈ reqs2, k ∈ reqs1)
    (hgen : ∀ k ∈ reqs1, ∃ p, gen_params k.1 k.2 goal = some p) :
    ∃ m', runRequests goal (reqs1 ++ reqs2)
        (ConstraintSystemRef.CS ⟨none, some ⟨0, 0⟩⟩) =
      some (ConstraintSystemRef.CS m') ∧
      m'.hit_rate = some ⟨reqs2.length, reqs1.length⟩ := by
  obtain ⟨m1, hrun1, hhr1, hpresence, -⟩ :=
    runRequests_fresh goal reqs1 ⟨none, some ⟨0, 0⟩⟩ 0 0 rfl hnodup
      (fun k _ => rfl) hgen
  obtain ⟨m', hrun2, hhr2⟩ :=
    runRequests_hits goal reqs2 m1 0 (0 + reqs1.length) hhr1
      (fun k hk => hpresence k (hsub k hk))
  refine ⟨m', ?_, ?_⟩
  · rw [runRequests_append, hrun1]
    simpa using hrun2
  · rw [hhr2]
    simp

/-- Witness for C6: a fresh lookup of `(20, 16)` in a context with an
empty parameter map returns the generated `(4, 4)` and stores it. -/
theorem claim_C6_witness :
    get_params 20 16 OptimizationType.Constraints
        (ConstraintSystemRef.CS ⟨some [], some ⟨0, 0⟩⟩) =
      some (⟨4, 4⟩, ConstraintSystemRef.CS
        ⟨some [((20, 16), ⟨4, 4⟩)], some ⟨0, 1⟩⟩) ∧
    lookupParams ⟨some [((20, 16), ⟨4, 4⟩)], some ⟨0, 1⟩⟩ (20, 16) = some ⟨4, 4⟩ := by
  obtain ⟨m', hget, hlook⟩ :=
    (claim_C6 20 16 OptimizationType.Constraints ⟨some [], some ⟨0, 0⟩⟩).1 ⟨4, 4⟩ rfl rfl
  have hval : get_params 20 16 OptimizationType.Constraints
      (ConstraintSystemRef.CS ⟨some [], some ⟨0, 0⟩⟩) =
    some (⟨4, 4⟩, ConstraintSystemRef.CS
      ⟨some [((20, 16), ⟨4, 4⟩)], some ⟨0, 1⟩⟩) := by rfl
  have h := hget.symm.trans hval
  simp only [Option.some_inj, Prod.mk.injEq, ConstraintSystemRef.CS.injEq, true_and] at h
  rw [h] at hlook
  exact ⟨hval, hlook⟩

/-- Witness for C8: two distinct keys then one repeat leave the counter at
one hit and two misses. -/
theorem claim_C8_witness :
    runRequests OptimizationType.Constraints [(20, 16), (22, 16), (20, 16)]
        (ConstraintSystemRef.CS ⟨none, some ⟨0, 0⟩⟩) =
      some (ConstraintSystemRef.CS
        ⟨some [((20, 16), ⟨4, 4⟩), ((22, 16), ⟨16, 1⟩)], some ⟨1, 2⟩⟩) ∧
    (CacheMap.mk (some [((20, 16), ⟨4, 4⟩), ((22, 16), ⟨16, 1⟩)])
      (some ⟨1, 2⟩)).hit_rate = some ⟨1, 2⟩ := by
  obtain ⟨m', hrun, hrate⟩ :=
    claim_C8 OptimizationType.Constraints [(20, 16), (22, 16)] [(20, 16)]
      (by decide) (by decide)
      (by
        intro k hk
        rcases (by simpa using hk : k = (20, 16) ∨ k = (22, 16)) with rfl | rfl
        · exact ⟨⟨4, 4⟩, rfl⟩
        · exact ⟨⟨16, 1⟩, rfl⟩)
  have hval : runRequests OptimizationType.Constraints [(20, 16), (22, 16), (20, 16)]
      (ConstraintSystemRef.CS ⟨none, some ⟨0, 0⟩⟩) =
    some (ConstraintSystemRef.CS
      ⟨some [((20, 16), ⟨4, 4⟩), ((22, 16), ⟨16, 1⟩)], some ⟨1, 2⟩⟩) := by rfl
  have h := hrun.symm.trans hval
  simp only [Option.some_inj, ConstraintSystemRef.CS.injEq] at h
  rw [h] at hrate
  exact ⟨hval, hrate⟩

/-- Witness for C9: updating an installed counter `⟨1, 2⟩` with a hit
leaves the parameter map alone and yields `⟨2, 2⟩`. -/
theorem claim_C9_witness :
    (HitRate.update ⟨some [], some ⟨1, 2⟩⟩ true).params_map = some [] ∧
    (HitRate.update ⟨some [], some ⟨1, 2⟩⟩ true).hit_rate = some ⟨2, 2⟩ :=
  ⟨(claim_C9 ⟨some [], some ⟨1, 2⟩⟩ true).1,
    by rw [(claim_C9 ⟨some [], some ⟨1, 2⟩⟩ true).2.2 ⟨1, 2⟩ rfl]; rfl⟩

end Nonnative
